import Mathlib

/-!
Verification of the transactional layer in
`src/transaction_impl/transaction_fantasticc_nolock.h` (a TicToc-style
optimistic concurrency-control layer over SplinterDB).

The embedding is a sequential (single-thread) semantics of the C code:
every atomic load reads the current cache state and every CAS succeeds on
its first attempt, so each `do { ... } while(!cas)` loop runs exactly once.
The unbounded no-wait lock retry loop is given explicit fuel (`none`
models non-termination of the retry under a permanently held lock).

Machine integers: `txn_timestamp` arithmetic is modelled on `Nat`; stores
into the 48-bit `wts` and 15-bit `delta` bitfields truncate with
`% 2^48` / `% 2^15` exactly where the C bitfield stores truncate.

Collaborators (the underlying KVS, the iceberg timestamp cache, the
data-config comparator and merge function, `platform_sort_slow`) are not
in `src/`; they enter the model as parameters or as trace events, and the
two concrete comparators below are marked as modelled from the spec.
Heap/refcount bookkeeping (`need_to_keep_key`,
`need_to_decrease_refcount`, `platform_free*`) is not modelled: entries
are values, and "deep copy" is value copy.
-/

namespace Fantasticc

/-- The packed per-key timestamp word `{ lock_bit:1, delta:15, wts:48 }`
(struct `timestamp_set`).  Field values are the values read from the
bitfields; operations that store into the bitfields truncate. -/
structure timestamp_set where
  lock_bit : Bool
  delta    : Nat
  wts      : Nat
  deriving DecidableEq

/-- `timestamp_set_get_rts`: `ts->wts + ts->delta`. -/
def timestamp_set_get_rts (ts : timestamp_set) : Nat :=
  ts.wts + ts.delta

/-- Well-formed word: the field values fit their bit widths. -/
def timestamp_set.WF (ts : timestamp_set) : Prop :=
  ts.delta < 2 ^ 15 ∧ ts.wts < 2 ^ 48

/-- Message classes used by the transactional layer
(`MESSAGE_TYPE_INSERT/UPDATE/DELETE`). -/
inductive message_type where
  | insert
  | update
  | delete
  deriving DecidableEq

/-- A tagged message: class plus payload bytes. -/
structure message where
  cls  : message_type
  data : List Nat
  deriving DecidableEq

/-- `message_is_definitive`: INSERT and DELETE messages are definitive. -/
def message_is_definitive (m : message) : Bool :=
  m.cls == .insert || m.cls == .delete

/-- Keys and stored payloads are byte lists. -/
abbrev Bytes := List Nat

/-- The timestamp cache (`iceberg_table tscache`), as a total map from
key bytes to timestamp words; absent keys map to the zero word that
`iceberg_insert_and_get` would install. -/
abbrev tscache := Bytes → timestamp_set

/-- Store a word into one cache slot. -/
def updSlot (s : tscache) (k : Bytes) (v : timestamp_set) : tscache :=
  fun k' => if k' = k then v else s k'

/-- A per-transaction RW entry (struct `rw_entry`): owned key bytes,
optional pending message, sampled timestamps, `is_read` flag.  The
`tuple_ts` pointer is represented by the entry's stored key indexing into
the `tscache` map. -/
structure rw_entry where
  key     : Bytes
  msg     : Option message
  wts     : Nat
  rts     : Nat
  is_read : Bool
  deriving DecidableEq

/-- Default entry (used only as the `List.getD` fallback). -/
def rw_entry0 : rw_entry :=
  { key := [], msg := none, wts := 0, rts := 0, is_read := false }

/-- `rw_entry_is_read`. -/
def rw_entry_is_read (e : rw_entry) : Bool := e.is_read

/-- `rw_entry_is_write`: the entry has a pending message. -/
def rw_entry_is_write (e : rw_entry) : Bool := e.msg.isSome

/-- `rw_entry_set_key`: copy the user key into a zero-filled buffer of
`KEY_SIZE` bytes and record the slice length as `KEY_SIZE`.  `ksz` is the
collaborator constant `KEY_SIZE`. -/
def rw_entry_set_key (ksz : Nat) (user_key : Bytes) : Bytes :=
  (user_key ++ List.replicate ksz 0).take ksz

/-- The linear search of `rw_entry_get`: index of the first stored entry
whose key the comparator equates with the incoming user key. -/
def rw_entry_find (cmp : Bytes → Bytes → Int) (user_key : Bytes) :
    List rw_entry → Option Nat
  | [] => none
  | e :: es =>
    if cmp user_key e.key = 0 then some 0
    else (rw_entry_find cmp user_key es).map (· + 1)

/-- `rw_entry_get`: return the matching entry's index (updating its
`is_read |= is_read`), or append a freshly zero-allocated entry whose key
is the `KEY_SIZE` zero-padded copy of the user key. -/
def rw_entry_get (cmp : Bytes → Bytes → Int) (ksz : Nat)
    (txn : List rw_entry) (user_key : Bytes) (is_read : Bool) :
    List rw_entry × Nat :=
  match rw_entry_find cmp user_key txn with
  | some i =>
    let e := txn.getD i rw_entry0
    (txn.set i { e with is_read := e.is_read || is_read }, i)
  | none =>
    (txn ++ [{ key := rw_entry_set_key ksz user_key, msg := none,
               wts := 0, rts := 0, is_read := is_read }], txn.length)

/-- `rw_entry_try_lock`: fail if the lock bit is set, else CAS it in
(sequentially the CAS succeeds). -/
def rw_entry_try_lock (t : timestamp_set) : Option timestamp_set :=
  if t.lock_bit then none else some { t with lock_bit := true }

/-- `rw_entry_unlock`: CAS-loop clearing the lock bit, preserving `wts`
and `delta` (sequentially one iteration). -/
def rw_entry_unlock (t : timestamp_set) : timestamp_set :=
  { t with lock_bit := false }

/-- Observable effects of a commit / lookup: the back-off sleep and the
calls into the KVS collaborator. -/
inductive Event where
  | sleepNs   (ns : Nat)
  | kvsInsert (k v : Bytes)
  | kvsUpdate (k v : Bytes)
  | kvsDelete (k : Bytes)
  | kvsLookup (k : Bytes)
  deriving DecidableEq

/-- Is the event a call into the KVS collaborator? -/
def Event.isKvs : Event → Bool
  | .sleepNs _ => false
  | _ => true

/-- Key argument of a KVS mutation event, if any. -/
def Event.mutKey : Event → Option Bytes
  | .kvsInsert k _ => some k
  | .kvsUpdate k _ => some k
  | .kvsDelete k => some k
  | _ => none

/-- `local_write` (shared body of insert/update/delete): find or create
the entry; for UPDATE/DELETE install the slot and sample `(wts, rts)`;
then buffer the message, merging per the definitive/merge rules.
`none` models the fatal `platform_assert` on merging over a pending
DELETE.  `mrg` is the data-config collaborator `data_merge_tuples`
(key, old pending message, incoming message). -/
def local_write (cmp : Bytes → Bytes → Int)
    (mrg : Bytes → message → message → message) (ksz : Nat)
    (txn : List rw_entry) (slots : tscache) (user_key : Bytes)
    (msg : message) : Option (List rw_entry) :=
  let res := rw_entry_get cmp ksz txn user_key false
  let txn1 := res.1
  let i := res.2
  let e0 := txn1.getD i rw_entry0
  let e :=
    if msg.cls = .update ∨ msg.cls = .delete then
      { e0 with wts := (slots e0.key).wts,
                rts := timestamp_set_get_rts (slots e0.key) }
    else e0
  match e.msg with
  | none => some (txn1.set i { e with msg := some msg })
  | some old =>
    if cmp e.key user_key = 0 then
      if message_is_definitive msg then
        some (txn1.set i { e with msg := some msg })
      else
        if old.cls = .delete then none
        else some (txn1.set i { e with msg := some (mrg user_key old msg) })
    else some (txn1.set i e)

/-- `transactional_splinterdb_lookup`: find or create the read entry,
then the load–(read-own-write | KVS lookup)–load sandwich.  Sequentially
the two loads agree, so the retry loop exits iff the lock bit is clear;
`none` models spinning on a locked slot.  Returns the updated entry list,
the bytes copied into the caller's result, and the trace of KVS calls.
`kvs` is the collaborator `splinterdb_lookup` result for the user key. -/
def transactional_splinterdb_lookup (cmp : Bytes → Bytes → Int) (ksz : Nat)
    (txn : List rw_entry) (slots : tscache) (kvs : Bytes → Bytes)
    (user_key : Bytes) : Option (List rw_entry × Bytes × List Event) :=
  let res := rw_entry_get cmp ksz txn user_key true
  let txn1 := res.1
  let i := res.2
  let e := txn1.getD i rw_entry0
  let v1 := slots e.key
  if v1.lock_bit then none
  else
    let out :=
      match e.msg with
      | some m => (m.data, ([] : List Event))
      | none => (kvs user_key, [Event.kvsLookup user_key])
    some (txn1.set i { e with wts := v1.wts,
                              rts := timestamp_set_get_rts v1 },
          out.1, out.2)

/-- The read set of a commit: entries with `is_read`, in entry order. -/
def readSet (txn : List rw_entry) : List rw_entry :=
  txn.filter (fun e => rw_entry_is_read e)

/-- The write set of a commit: entries with a pending message, in entry
order (before sorting). -/
def writeSet (txn : List rw_entry) : List rw_entry :=
  txn.filter (fun e => rw_entry_is_write e)

/-- The per-read `+1` applied only under `EXPERIMENTAL_MODE_SILO == 1`. -/
def siloAdd (silo : Bool) : Nat := if silo then 1 else 0

/-- The first commit-timestamp pass: `commit_ts = MAX(commit_ts, wts)`
over the read set, starting from 0. -/
def initialCts (silo : Bool) (txn : List rw_entry) : Nat :=
  (readSet txn).foldl (fun c r => max c (r.wts + siloAdd silo)) 0

/-- Modelled from the spec: `platform_sort_slow` (platform collaborator,
not under `src/`) sorts the write set ascending by
`rw_entry_key_compare`, i.e. by the data-config comparator on the stored
keys. -/
def sortWrites (cmp : Bytes → Bytes → Int) (ws : List rw_entry) :
    List rw_entry :=
  List.insertionSort (fun a b => cmp a.key b.key ≤ 0) ws

/-- One pass of the `RETRY_LOCK_WRITE_SET` loop: try-lock each write's
slot in order; on the first failure, unlock the already-acquired prefix
(as the C loop does) and report failure. -/
def lockLoop (acquired : List rw_entry) :
    List rw_entry → tscache → tscache ⊕ tscache
  | [], s => .inl s
  | w :: ws, s =>
    match rw_entry_try_lock (s w.key) with
    | some t => lockLoop (acquired ++ [w]) ws (updSlot s w.key t)
    | none =>
      .inr (acquired.foldl
        (fun s' a => updSlot s' a.key (rw_entry_unlock (s' a.key))) s)

/-- The full no-wait lock acquisition: on a failed pass, sleep 1 µs
(`platform_sleep_ns(1000)`) and restart from the first write.  Fuel
bounds the number of passes; `none` models the retry never succeeding. -/
def lockPhase : Nat → List rw_entry → tscache →
    Option tscache × List Event
  | 0, _, _ => (none, [])
  | fuel + 1, ws, s =>
    match lockLoop [] ws s with
    | .inl s' => (some s', [])
    | .inr s' =>
      let r := lockPhase fuel ws s'
      (r.1, Event.sleepNs 1000 :: r.2)

/-- The second commit-timestamp pass:
`commit_ts = MAX(commit_ts, rts_of(slot) + 1)` over the (locked) write
set. -/
def raiseCts (cts : Nat) (slots : tscache) (ws : List rw_entry) : Nat :=
  ws.foldl (fun c w => max c (timestamp_set_get_rts (slots w.key) + 1)) cts

/-- The rts-extension body of read validation:
`delta = commit_ts - v1.wts; shift = delta - (delta & 0x7fff);
v2.wts += shift; v2.delta = delta - shift`, with the bitfield stores
truncating to 48 and 15 bits. -/
def extendRts (commit_ts : Nat) (v1 : timestamp_set) : timestamp_set :=
  let delta := commit_ts - v1.wts
  let shift := delta - (delta &&& 0x7fff)
  { v1 with wts := (v1.wts + shift) % 2 ^ 48,
            delta := (delta - shift) % 2 ^ 15 }

/-- The abort test of read validation at snapshot `v1`:
`r->wts != v1.wts`, or
`rts_of(v1) <= commit_ts && lock_bit && !rw_entry_is_write(r)`. -/
def validateCond (cts : Nat) (r : rw_entry) (v1 : timestamp_set) : Prop :=
  r.wts ≠ v1.wts ∨
    (timestamp_set_get_rts v1 ≤ cts ∧ v1.lock_bit = true ∧ r.msg = none)

instance (cts r v1) : Decidable (validateCond cts r v1) := by
  unfold validateCond; infer_instance

/-- Read validation over the read set: entries with `rts >= commit_ts`
are skipped; otherwise abort on `validateCond`, else extend the slot's
rts when `rts_of(v1) <= commit_ts`.  Returns the updated cache and the
abort flag. -/
def validatePhase (cts : Nat) :
    List rw_entry → tscache → tscache × Bool
  | [], s => (s, false)
  | r :: rs, s =>
    if r.rts < cts then
      let v1 := s r.key
      if validateCond cts r v1 then (s, true)
      else
        let s' :=
          if timestamp_set_get_rts v1 ≤ cts then
            updSlot s r.key (extendRts cts v1)
          else s
        validatePhase cts rs s'
    else validatePhase cts rs s

/-- The KVS call issued for one buffered write at apply time. -/
def applyEvent (k : Bytes) (m : message) : Event :=
  match m.cls with
  | .insert => .kvsInsert k m.data
  | .update => .kvsUpdate k m.data
  | .delete => .kvsDelete k

/-- Apply phase: dispatch each write's message to the KVS, then CAS the
slot to `{wts = commit_ts, delta = 0, lock_bit = 0}` (48-bit store). -/
def applyPhase (cts : Nat) :
    List rw_entry → tscache → tscache × List Event
  | [], s => (s, [])
  | w :: ws, s =>
    let evs :=
      match w.msg with
      | some m => [applyEvent w.key m]
      | none => []
    let s' := updSlot s w.key
      { lock_bit := false, delta := 0, wts := cts % 2 ^ 48 }
    let r := applyPhase cts ws s'
    (r.1, evs ++ r.2)

/-- Abort phase: release every held write lock. -/
def abortPhase (ws : List rw_entry) (s : tscache) : tscache :=
  ws.foldl (fun s' w => updSlot s' w.key (rw_entry_unlock (s' w.key))) s

/-- The observable outcome of `transactional_splinterdb_commit`. -/
structure CommitOut where
  rc        : Int
  commit_ts : Nat
  events    : List Event
  slots     : tscache
  teardown  : List rw_entry

/-- `transactional_splinterdb_commit`: partition and initial commit-ts,
sort the write set, no-wait locking, raise commit-ts over the writes,
read validation, then apply (rc 0) or release the locks (rc −1), and
tear the transaction down either way. -/
def transactional_splinterdb_commit (silo : Bool)
    (cmp : Bytes → Bytes → Int) (fuel : Nat) (txn : List rw_entry)
    (slots0 : tscache) : Option CommitOut :=
  let reads := readSet txn
  let ws := sortWrites cmp (writeSet txn)
  let cts0 := initialCts silo txn
  match lockPhase fuel ws slots0 with
  | (none, _) => none
  | (some slots1, evs) =>
    let cts := raiseCts cts0 slots1 ws
    let v := validatePhase cts reads slots1
    if v.2 then
      some { rc := -1, commit_ts := cts, events := evs,
             slots := abortPhase ws v.1, teardown := txn }
    else
      let a := applyPhase cts ws v.1
      some { rc := 0, commit_ts := cts, events := evs ++ a.2,
             slots := a.1, teardown := txn }

/-- Modelled from the spec: the default bytewise key comparator supplied
by the data-config collaborator (shorter key is smaller when it is a
proper prefix). -/
def byteCmp : Bytes → Bytes → Int
  | [], [] => 0
  | [], _ :: _ => -1
  | _ :: _, [] => 1
  | a :: as, b :: bs =>
    if a < b then -1 else if b < a then 1 else byteCmp as bs

/-- Modelled from the spec: a simple valid data-config comparator
(compares the first byte), used to instantiate comparator hypotheses. -/
def hdCmp (a b : Bytes) : Int :=
  Int.ofNat (a.headD 0) - Int.ofNat (b.headD 0)

/-- A transaction's entry list after a sequence of `rw_entry_get` calls
(the shared first step of insert, update, delete and lookup), with the
bytewise comparator: one `(user_key, is_read)` pair per call. -/
def runGets (ksz : Nat) (ks : List (Bytes × Bool)) : List rw_entry :=
  ks.foldl (fun t p => (rw_entry_get byteCmp ksz t p.1 p.2).1) []

/-! ### Helper lemmas -/

theorem updSlot_same (s : tscache) (k : Bytes) (v : timestamp_set) :
    updSlot s k v k = v := by
  simp [updSlot]

theorem updSlot_other (s : tscache) (k k' : Bytes) (v : timestamp_set)
    (h : k' ≠ k) : updSlot s k v k' = s k' := by
  simp [updSlot, h]

theorem land_mask15 (d : Nat) : d &&& 32767 = d % 32768 := by
  have h := Nat.and_pow_two_sub_one_eq_mod d 15
  norm_num at h
  exact h

theorem foldl_max_spec {α : Type} (f : α → Nat) :
    ∀ (l : List α) (a : Nat),
      a ≤ l.foldl (fun c x => max c (f x)) a
      ∧ (∀ x ∈ l, f x ≤ l.foldl (fun c x => max c (f x)) a)
      ∧ (l.foldl (fun c x => max c (f x)) a = a ∨
         ∃ x ∈ l, l.foldl (fun c x => max c (f x)) a = f x)
  | [], a => by simp
  | x :: l, a => by
    have ih := foldl_max_spec f l (max a (f x))
    simp only [List.foldl_cons]
    refine ⟨le_trans (le_max_left _ _) ih.1, ?_, ?_⟩
    · intro y hy
      rcases List.mem_cons.mp hy with rfl | hy
      · exact le_trans (le_max_right _ _) ih.1
      · exact ih.2.1 y hy
    · rcases ih.2.2 with h | ⟨y, hy, h⟩
      · rcases Nat.le_total a (f x) with hax | hax
        · right
          exact ⟨x, by simp, by rw [h, Nat.max_eq_right hax]⟩
        · left
          rw [h, Nat.max_eq_left hax]
      · right
        exact ⟨y, List.mem_cons_of_mem _ hy, h⟩

theorem byteCmp_eq_zero_iff : ∀ a b : Bytes, byteCmp a b = 0 ↔ a = b
  | [], [] => by simp [byteCmp]
  | [], _ :: _ => by simp [byteCmp]
  | _ :: _, [] => by simp [byteCmp]
  | a :: as, b :: bs => by
    simp only [byteCmp]
    by_cases h1 : a < b
    · simp only [if_pos h1]
      constructor
      · intro h; exact absurd h (by norm_num)
      · intro h; injection h with h _; omega
    · by_cases h2 : b < a
      · simp only [if_neg h1, if_pos h2]
        constructor
        · intro h; exact absurd h (by norm_num)
        · intro h; injection h with h _; omega
      · have hab : a = b := by omega
        subst hab
        simp only [if_neg h1, if_neg h2, byteCmp_eq_zero_iff as bs,
          List.cons.injEq, true_and]

theorem rw_entry_find_some (cmp : Bytes → Bytes → Int) (k : Bytes) :
    ∀ (txn : List rw_entry) (i : Nat),
      rw_entry_find cmp k txn = some i →
      i < txn.length ∧ cmp k ((txn.getD i rw_entry0).key) = 0
        ∧ ∀ j, j < i → cmp k ((txn.getD j rw_entry0).key) ≠ 0
  | [], i => by simp [rw_entry_find]
  | e :: es, i => by
    intro h
    simp only [rw_entry_find] at h
    by_cases hc : cmp k e.key = 0
    · rw [if_pos hc] at h
      injection h with h
      subst h
      exact ⟨by simp, by simpa using hc, by omega⟩
    · rw [if_neg hc] at h
      rcases h' : rw_entry_find cmp k es with _ | i'
      · rw [h'] at h; simp at h
      · rw [h'] at h
        simp only [Option.map_some', Option.some.injEq] at h
        have ih := rw_entry_find_some cmp k es i' h'
        subst h
        refine ⟨by simp; omega, by simpa using ih.2.1, ?_⟩
        intro j hj
        match j with
        | 0 => simpa using hc
        | j + 1 =>
          have := ih.2.2 j (by omega)
          simpa using this

theorem rw_entry_find_none (cmp : Bytes → Bytes → Int) (k : Bytes) :
    ∀ txn : List rw_entry,
      rw_entry_find cmp k txn = none → ∀ e ∈ txn, cmp k e.key ≠ 0
  | [] => by simp
  | e :: es => by
    intro h
    simp only [rw_entry_find] at h
    by_cases hc : cmp k e.key = 0
    · rw [if_pos hc] at h; simp at h
    · rw [if_neg hc] at h
      intro x hx
      rcases List.mem_cons.mp hx with rfl | hx
      · exact hc
      · rcases h' : rw_entry_find cmp k es with _ | i'
        · exact rw_entry_find_none cmp k es h' x hx
        · rw [h'] at h; simp at h

theorem map_key_set :
    ∀ (txn : List rw_entry) (i : Nat) (b : Bool),
      ((txn.set i
        { txn.getD i rw_entry0 with is_read := b }).map rw_entry.key)
        = txn.map rw_entry.key
  | [], i, b => by simp
  | e :: es, 0, b => by simp
  | e :: es, i + 1, b => by
    simp only [List.getD_cons_succ, List.set_cons_succ, List.map_cons,
      List.cons.injEq, true_and]
    exact map_key_set es i b

theorem rw_entry_set_key_length (ksz : Nat) (k : Bytes) :
    (rw_entry_set_key ksz k).length = ksz := by
  simp [rw_entry_set_key]

theorem rw_entry_set_key_of_le (ksz : Nat) (k : Bytes)
    (h : k.length ≤ ksz) :
    rw_entry_set_key ksz k = k ++ List.replicate (ksz - k.length) 0 := by
  simp only [rw_entry_set_key]
  rw [List.take_append_eq_append_take, List.take_of_length_le h,
    List.take_replicate, Nat.min_eq_left (Nat.sub_le _ _)]

theorem rw_entry_set_key_of_eq (ksz : Nat) (k : Bytes)
    (h : k.length = ksz) : rw_entry_set_key ksz k = k := by
  rw [rw_entry_set_key_of_le ksz k (le_of_eq h), h]
  simp

theorem rw_entry_get_map_key (cmp : Bytes → Bytes → Int) (ksz : Nat)
    (txn : List rw_entry) (k : Bytes) (ir : Bool) :
    ((rw_entry_get cmp ksz txn k ir).1).map rw_entry.key
      = txn.map rw_entry.key
    ∨ (rw_entry_find cmp k txn = none
       ∧ ((rw_entry_get cmp ksz txn k ir).1).map rw_entry.key
         = txn.map rw_entry.key ++ [rw_entry_set_key ksz k]) := by
  unfold rw_entry_get
  rcases h : rw_entry_find cmp k txn with _ | i
  · right
    simp [h]
  · left
    simp only [h]
    exact map_key_set txn i _

theorem runGets_inv (ksz : Nat) :
    ∀ (ks : List (Bytes × Bool)) (txn : List rw_entry),
      (∀ p ∈ ks, (p.1 : Bytes).length = ksz) →
      (∀ kk ∈ txn.map rw_entry.key, kk.length = ksz) →
      (txn.map rw_entry.key).Nodup →
      (∀ kk ∈ (ks.foldl
          (fun t p => (rw_entry_get byteCmp ksz t p.1 p.2).1) txn).map
          rw_entry.key, kk.length = ksz)
      ∧ ((ks.foldl
          (fun t p => (rw_entry_get byteCmp ksz t p.1 p.2).1) txn).map
          rw_entry.key).Nodup
  | [], txn => by
    intro _ hlen hnd
    simp only [List.foldl_nil]
    exact ⟨hlen, hnd⟩
  | p :: ks, txn => by
    intro hk hlen hnd
    simp only [List.foldl_cons]
    rcases rw_entry_get_map_key byteCmp ksz txn p.1 p.2 with heq |
        ⟨hfind, heq⟩
    · exact runGets_inv ksz ks _
        (fun q hq => hk q (List.mem_cons_of_mem _ hq))
        (by rw [heq]; exact hlen) (by rw [heq]; exact hnd)
    · have hp : (p.1 : Bytes).length = ksz := hk p (by simp)
      have hpad : rw_entry_set_key ksz p.1 = p.1 :=
        rw_entry_set_key_of_eq ksz p.1 hp
      have hnotin : p.1 ∉ txn.map rw_entry.key := by
        intro hmem
        rcases List.mem_map.mp hmem with ⟨e, he, hkey⟩
        exact rw_entry_find_none byteCmp p.1 txn hfind e he
          ((byteCmp_eq_zero_iff p.1 e.key).mpr hkey.symm)
      refine runGets_inv ksz ks _
        (fun q hq => hk q (List.mem_cons_of_mem _ hq)) ?_ ?_
      · rw [heq, hpad]
        intro kk hkk
        rcases List.mem_append.mp hkk with hkk | hkk
        · exact hlen kk hkk
        · rw [List.mem_singleton.mp hkk]
          exact hp
      · rw [heq, hpad]
        rw [List.nodup_append]
        refine ⟨hnd, List.nodup_singleton _, ?_⟩
        intro a ha hb
        rw [List.mem_singleton] at hb
        subst hb
        exact hnotin ha

theorem filter_key_le_one (k : Bytes) :
    ∀ l : List rw_entry, (l.map rw_entry.key).Nodup →
      (l.filter (fun e => decide (e.key = k))).length ≤ 1
  | [] => by simp
  | e :: es => by
    intro hnd
    simp only [List.map_cons, List.nodup_cons] at hnd
    by_cases hek : e.key = k
    · have hnil : es.filter (fun e => decide (e.key = k)) = [] := by
        rw [List.filter_eq_nil_iff]
        intro x hx
        simp only [decide_eq_true_eq]
        intro hxk
        exact hnd.1 (by
          rw [hek, ← hxk]
          exact List.mem_map_of_mem rw_entry.key hx)
      simp [List.filter_cons, hek, hnil]
    · simp only [List.filter_cons, decide_eq_true_eq, if_neg hek]
      exact filter_key_le_one k es hnd.2

theorem lockPhase_events_sleep :
    ∀ (fuel : Nat) (ws : List rw_entry) (s : tscache),
      ∀ e ∈ (lockPhase fuel ws s).2, e = Event.sleepNs 1000
  | 0, ws, s => by simp [lockPhase]
  | fuel + 1, ws, s => by
    intro e he
    rcases h : lockLoop [] ws s with s' | s'
    · simp [lockPhase, h] at he
    · simp only [lockPhase, h] at he
      rcases List.mem_cons.mp he with rfl | he
      · rfl
      · exact lockPhase_events_sleep fuel ws s' e he

theorem applyEvent_mutKey (k : Bytes) (m : message) :
    (applyEvent k m).mutKey = some k := by
  rcases hc : m.cls <;> simp [applyEvent, Event.mutKey, hc]

theorem applyPhase_mutKeys (cts : Nat) :
    ∀ (ws : List rw_entry) (s : tscache), (∀ w ∈ ws, w.msg.isSome) →
      ((applyPhase cts ws s).2).filterMap Event.mutKey
        = ws.map rw_entry.key
  | [], s => by simp [applyPhase]
  | w :: ws, s => by
    intro hm
    rcases hmsg : w.msg with _ | m
    · exact absurd (hm w (by simp)) (by simp [hmsg])
    · simp only [applyPhase, hmsg, List.map_cons]
      rw [List.filterMap_append]
      simp only [List.filterMap_cons, applyEvent_mutKey,
        List.filterMap_nil]
      rw [applyPhase_mutKeys cts ws _
        (fun x hx => hm x (List.mem_cons_of_mem _ hx))]
      rfl

theorem extendRts_spec (cts : Nat) (v1 : timestamp_set)
    (h1 : v1.wts ≤ cts) (h2 : cts < 2 ^ 48) :
    (extendRts cts v1).delta < 2 ^ 15
    ∧ (extendRts cts v1).delta = (cts - v1.wts) % 2 ^ 15
    ∧ (extendRts cts v1).wts
        = v1.wts + ((cts - v1.wts) - (cts - v1.wts) % 2 ^ 15)
    ∧ (extendRts cts v1).lock_bit = v1.lock_bit
    ∧ timestamp_set_get_rts (extendRts cts v1) = cts := by
  simp only [extendRts, timestamp_set_get_rts, land_mask15]
  norm_num at h2 ⊢
  omega

/-! ### C2: rts extension -/

/-- C2 (counterexample): at `commit_ts = 2^48` and the zero snapshot
(whose `wts = 0 ≤ commit_ts`), the 48-bit store wraps and the resulting
`wts + delta` is `0`, not `commit_ts`. -/
theorem extend_rts_overflow_cex :
    (⟨false, 0, 0⟩ : timestamp_set).wts ≤ 2 ^ 48
    ∧ timestamp_set_get_rts (extendRts (2 ^ 48) ⟨false, 0, 0⟩) ≠ 2 ^ 48 := by
  constructor
  · exact Nat.zero_le _
  · decide

/-- C2 (amended): the rts-extension step computes
`delta = commit_ts - v1.wts`, `shift = delta - (delta & 0x7fff)`,
`new wts = v1.wts + shift`, `new delta = delta & 0x7fff`; for every
snapshot with `v1.wts ≤ commit_ts` **and `commit_ts < 2^48`** this
yields `new delta < 2^15`, preserves the lock bit, and makes
`new wts + new delta` exactly `commit_ts`; in particular for
`wts = W, delta = 0` and `commit_ts = W + 40000 < 2^48` the final rts
equals `W + 40000`. -/
theorem extend_rts_exact :
    (∀ (cts : Nat) (v1 : timestamp_set), v1.wts ≤ cts → cts < 2 ^ 48 →
      (extendRts cts v1).delta < 2 ^ 15
      ∧ (extendRts cts v1).delta = (cts - v1.wts) % 2 ^ 15
      ∧ (extendRts cts v1).wts
          = v1.wts + ((cts - v1.wts) - (cts - v1.wts) % 2 ^ 15)
      ∧ (extendRts cts v1).lock_bit = v1.lock_bit
      ∧ timestamp_set_get_rts (extendRts cts v1) = cts)
    ∧ (∀ (W : Nat) (b : Bool), W + 40000 < 2 ^ 48 →
        timestamp_set_get_rts (extendRts (W + 40000) ⟨b, 0, W⟩)
          = W + 40000) := by
  constructor
  · exact fun cts v1 h1 h2 => extendRts_spec cts v1 h1 h2
  · intro W b h
    exact (extendRts_spec (W + 40000) ⟨b, 0, W⟩ (Nat.le_add_right _ _)
      h).2.2.2.2

/-- C2 witness: the amended theorem applied at a concrete boundary
input `wts = 5`, `commit_ts = 5 + 40000`. -/
theorem extend_rts_exact_witness :
    ((⟨true, 0, 5⟩ : timestamp_set).wts ≤ 5 + 40000
      ∧ 5 + 40000 < 2 ^ 48
      ∧ 5 + 40000 < 2 ^ 48)
    ∧ timestamp_set_get_rts (extendRts (5 + 40000) ⟨true, 0, 5⟩)
        = 5 + 40000
    ∧ timestamp_set_get_rts (extendRts (5 + 40000) ⟨true, 0, 5⟩)
        = 5 + 40000 :=
  ⟨⟨by norm_num, by norm_num, by norm_num⟩,
   (extend_rts_exact.1 (5 + 40000) ⟨true, 0, 5⟩ (by norm_num)
     (by norm_num)).2.2.2.2,
   extend_rts_exact.2 5 true (by norm_num)⟩

/-! ### C6: one RW entry per user key -/

/-- C6 (counterexample): with the bytewise data-config comparator and
`KEY_SIZE = 4`, two `rw_entry_get` calls for the same user key `[1]`
(shorter than `KEY_SIZE`) create **two** RW entries, because the raw
user key never compares equal to the stored zero-padded key. -/
theorem rw_entry_dedup_cex :
    (runGets 4 [([1], false), ([1], false)]).map rw_entry.key
      = [[1, 0, 0, 0], [1, 0, 0, 0]]
    ∧ ((runGets 4 [([1], false), ([1], false)]).filter
        (fun e => decide (e.key = rw_entry_set_key 4 [1]))).length = 2 := by
  constructor <;> rfl

/-- C6 (amended): `rw_entry_get` performs a linear search comparing the
incoming user key against each stored entry's key with the data-config
comparator, returns the first matching entry without appending, and
appends a freshly allocated entry (the key copied into a zero-padded
`KEY_SIZE` buffer) only when no stored entry's key compares equal.
Consequently the transaction holds at most one RW entry per user key
*provided* the comparator equates each user key with its zero-padded
stored image — with the bytewise comparator, when every user key is
exactly `KEY_SIZE` bytes long. -/
theorem rw_entry_dedup :
    (∀ (cmp : Bytes → Bytes → Int) (ksz : Nat) (txn : List rw_entry)
        (k : Bytes) (ir : Bool),
      (rw_entry_find cmp k txn = none →
        (∀ e ∈ txn, cmp k e.key ≠ 0)
        ∧ (rw_entry_get cmp ksz txn k ir).1
            = txn ++ [{ key := rw_entry_set_key ksz k, msg := none,
                        wts := 0, rts := 0, is_read := ir }]
        ∧ (rw_entry_get cmp ksz txn k ir).2 = txn.length)
      ∧ (∀ i, rw_entry_find cmp k txn = some i →
          (rw_entry_get cmp ksz txn k ir).2 = i
          ∧ i < txn.length
          ∧ cmp k ((txn.getD i rw_entry0).key) = 0
          ∧ (∀ j, j < i → cmp k ((txn.getD j rw_entry0).key) ≠ 0)
          ∧ ((rw_entry_get cmp ksz txn k ir).1).length = txn.length))
    ∧ (∀ (ksz : Nat) (ks : List (Bytes × Bool)),
        (∀ p ∈ ks, (p.1 : Bytes).length = ksz) →
        ((runGets ksz ks).map rw_entry.key).Nodup
        ∧ ∀ p ∈ ks,
            ((runGets ksz ks).filter
              (fun e => decide (byteCmp p.1 e.key = 0))).length ≤ 1) := by
  constructor
  · intro cmp ksz txn k ir
    constructor
    · intro hnone
      refine ⟨rw_entry_find_none cmp k txn hnone, ?_, ?_⟩ <;>
        simp [rw_entry_get, hnone]
    · intro i hsome
      have hf := rw_entry_find_some cmp k txn i hsome
      refine ⟨by simp [rw_entry_get, hsome], hf.1, hf.2.1, hf.2.2, ?_⟩
      simp [rw_entry_get, hsome]
  · intro ksz ks hk
    have hinv := runGets_inv ksz ks [] hk (by simp) (by simp)
    refine ⟨hinv.2, ?_⟩
    intro p hp
    have hcongr : (runGets ksz ks).filter
        (fun e => decide (byteCmp p.1 e.key = 0))
        = (runGets ksz ks).filter (fun e => decide (e.key = p.1)) := by
      apply List.filter_congr
      intro e _
      simp only [decide_eq_decide]
      rw [byteCmp_eq_zero_iff]
      exact eq_comm
    rw [hcongr]
    exact filter_key_le_one p.1 (runGets ksz ks) hinv.2

/-- C6 witness: the amended theorem applied at `KEY_SIZE = 2` with the
single exactly-2-byte user key `[3, 4]`. -/
theorem rw_entry_dedup_witness :
    (rw_entry_find byteCmp [3, 4] [] = none
      ∧ (∀ p ∈ [(([3, 4] : Bytes), false)], (p.1 : Bytes).length = 2))
    ∧ (rw_entry_get byteCmp 2 [] [3, 4] false).1
        = [{ key := rw_entry_set_key 2 [3, 4], msg := none, wts := 0,
             rts := 0, is_read := false }]
    ∧ ((runGets 2 [([3, 4], false)]).map rw_entry.key).Nodup :=
  ⟨⟨rfl, by decide⟩,
   ((rw_entry_dedup.1 byteCmp 2 [] [3, 4] false).1 rfl).2.1,
   (rw_entry_dedup.2 2 [([3, 4], false)] (by decide)).1⟩

/-! ### C10: zero-padded KEY_SIZE stored keys -/

/-- C10: `rw_entry_set_key` copies the user key into a zero-filled
buffer of `KEY_SIZE` bytes and records the slice length as `KEY_SIZE`;
this stored padded key is what the dedup search compares against via the
data-config comparator, and the key passed to the KVS insert, update and
delete calls at commit apply. -/
theorem key_padding :
    (∀ (ksz : Nat) (k : Bytes),
      (rw_entry_set_key ksz k).length = ksz
      ∧ (k.length ≤ ksz →
          rw_entry_set_key ksz k
            = k ++ List.replicate (ksz - k.length) 0))
    ∧ (∀ (cmp : Bytes → Bytes → Int) (ksz : Nat) (txn : List rw_entry)
        (k : Bytes) (ir : Bool),
        rw_entry_find cmp k txn = none →
        (rw_entry_get cmp ksz txn k ir).1
          = txn ++ [{ key := rw_entry_set_key ksz k, msg := none,
                      wts := 0, rts := 0, is_read := ir }])
    ∧ (∀ (cmp : Bytes → Bytes → Int) (ksz : Nat) (txn : List rw_entry)
        (k : Bytes) (ir : Bool) (i : Nat),
        rw_entry_find cmp k txn = some i →
        cmp k ((txn.getD i rw_entry0).key) = 0
        ∧ ((rw_entry_get cmp ksz txn k ir).1).map rw_entry.key
            = txn.map rw_entry.key)
    ∧ (∀ (silo : Bool) (cmp : Bytes → Bytes → Int) (fuel : Nat)
        (txn : List rw_entry) (slots0 : tscache) (res : CommitOut),
        transactional_splinterdb_commit silo cmp fuel txn slots0
          = some res →
        res.rc = 0 →
        res.events.filterMap Event.mutKey
          = (sortWrites cmp (writeSet txn)).map rw_entry.key) := by
  refine ⟨?_, ?_, ?_, ?_⟩
  · intro ksz k
    exact ⟨rw_entry_set_key_length ksz k, rw_entry_set_key_of_le ksz k⟩
  · intro cmp ksz txn k ir hnone
    simp [rw_entry_get, hnone]
  · intro cmp ksz txn k ir i hsome
    refine ⟨(rw_entry_find_some cmp k txn i hsome).2.1, ?_⟩
    rcases rw_entry_get_map_key cmp ksz txn k ir with h | ⟨hn, _⟩
    · exact h
    · rw [hn] at hsome
      cases hsome
  · intro silo cmp fuel txn slots0 res hres hrc
    simp only [transactional_splinterdb_commit] at hres
    rcases hl : lockPhase fuel (sortWrites cmp (writeSet txn)) slots0
      with ⟨os, evs⟩
    rw [hl] at hres
    rcases os with _ | slots1
    · simp at hres
    · simp only at hres
      by_cases hab : (validatePhase
          (raiseCts (initialCts silo txn) slots1
            (sortWrites cmp (writeSet txn)))
          (readSet txn) slots1).2
      · rw [if_pos hab] at hres
        rw [Option.some.injEq] at hres
        rw [← hres] at hrc
        simp at hrc
      · rw [if_neg hab] at hres
        rw [Option.some.injEq] at hres
        subst hres
        simp only
        rw [List.filterMap_append]
        have hevs : evs.filterMap Event.mutKey = [] := by
          rw [List.filterMap_eq_nil_iff]
          intro e he
          have := lockPhase_events_sleep fuel
            (sortWrites cmp (writeSet txn)) slots0 e (by rw [hl]; exact he)
          rw [this]
          rfl
        rw [hevs, List.nil_append]
        apply applyPhase_mutKeys
        intro w hw
        have hw' : w ∈ writeSet txn :=
          (List.perm_insertionSort _ (writeSet txn)).mem_iff.mp hw
        have := List.mem_filter.mp hw'
        simpa [rw_entry_is_write] using this.2

/-- C10 witness: padding a 1-byte key to `KEY_SIZE = 3`, a fresh append,
and a committed single-insert transaction whose only KVS call carries
the stored (padded) key. -/
theorem key_padding_witness :
    ((rw_entry_set_key 3 [7]).length = 3
      ∧ rw_entry_set_key 3 [7] = [7] ++ List.replicate 2 0)
    ∧ (rw_entry_get byteCmp 3 [] [7] false).1
        = [{ key := rw_entry_set_key 3 [7], msg := none, wts := 0,
             rts := 0, is_read := false }]
    ∧ ([Event.kvsInsert [2] [9]] : List Event).filterMap Event.mutKey
        = (sortWrites byteCmp (writeSet
            [{ key := [2], msg := some ⟨.insert, [9]⟩, wts := 0,
               rts := 0, is_read := false }])).map rw_entry.key :=
  ⟨⟨(key_padding.1 3 [7]).1, (key_padding.1 3 [7]).2 (by decide)⟩,
   key_padding.2.1 byteCmp 3 [] [7] false rfl,
   key_padding.2.2.2 false byteCmp 1
     [{ key := [2], msg := some ⟨.insert, [9]⟩, wts := 0, rts := 0,
        is_read := false }]
     (fun _ => ⟨false, 0, 0⟩)
     { rc := 0, commit_ts := 1, events := [Event.kvsInsert [2] [9]],
       slots := updSlot (updSlot (fun _ => ⟨false, 0, 0⟩) [2]
         ⟨true, 0, 0⟩) [2] ⟨false, 0, 1 % 2 ^ 48⟩,
       teardown := [{ key := [2], msg := some ⟨.insert, [9]⟩, wts := 0,
                      rts := 0, is_read := false }] }
     rfl rfl⟩

theorem getD_set_self {α : Type} :
    ∀ (l : List α) (i : Nat) (a d : α), i < l.length →
      (l.set i a).getD i d = a
  | [], i, a, d => by simp
  | x :: xs, 0, a, d => by simp
  | x :: xs, i + 1, a, d => by
    intro h
    simp only [List.set_cons_succ, List.getD_cons_succ]
    exact getD_set_self xs i a d (by simpa using h)

theorem rw_entry_get_idx_lt (cmp : Bytes → Bytes → Int) (ksz : Nat)
    (txn : List rw_entry) (k : Bytes) (ir : Bool) :
    (rw_entry_get cmp ksz txn k ir).2
      < ((rw_entry_get cmp ksz txn k ir).1).length := by
  unfold rw_entry_get
  rcases h : rw_entry_find cmp k txn with _ | i
  · simp
  · have := (rw_entry_find_some cmp k txn i h).1
    simpa using this

/-! ### C5: read-own-writes lookup -/

/-- C5: for a transaction holding a pending write message for the looked
up key, `lookup` copies the pending message's payload into the caller's
result with **no** KVS lookup call, and still samples the entry's
timestamps `wts = v1.wts`, `rts = v1.wts + v1.delta` from a stable
(lock-bit-clear) snapshot of the slot. -/
theorem lookup_read_own_write
    (cmp : Bytes → Bytes → Int) (ksz : Nat) (txn : List rw_entry)
    (slots : tscache) (kvs : Bytes → Bytes) (user_key : Bytes)
    (m : message)
    (hmsg : ((rw_entry_get cmp ksz txn user_key true).1.getD
        (rw_entry_get cmp ksz txn user_key true).2 rw_entry0).msg
        = some m)
    (hlock : (slots ((rw_entry_get cmp ksz txn user_key true).1.getD
        (rw_entry_get cmp ksz txn user_key true).2 rw_entry0).key).lock_bit
        = false) :
    transactional_splinterdb_lookup cmp ksz txn slots kvs user_key
      = some ((rw_entry_get cmp ksz txn user_key true).1.set
          (rw_entry_get cmp ksz txn user_key true).2
          { (rw_entry_get cmp ksz txn user_key true).1.getD
              (rw_entry_get cmp ksz txn user_key true).2 rw_entry0 with
            wts := (slots ((rw_entry_get cmp ksz txn user_key true).1.getD
              (rw_entry_get cmp ksz txn user_key true).2 rw_entry0).key).wts,
            rts := timestamp_set_get_rts (slots
              ((rw_entry_get cmp ksz txn user_key true).1.getD
                (rw_entry_get cmp ksz txn user_key true).2
                rw_entry0).key) },
          m.data, []) := by
  simp only [transactional_splinterdb_lookup, hmsg, hlock]
  simp

/-- C5 witness: a transaction with a pending insert of `[7]` on key
`[3]`; lookup returns `[7]` with no KVS call and samples
`wts = 4, rts = 6` from the slot `⟨lock = false, delta = 2, wts = 4⟩`. -/
theorem lookup_read_own_write_witness :
    (((rw_entry_get byteCmp 1
        [{ key := [3], msg := some ⟨.insert, [7]⟩, wts := 0, rts := 0,
           is_read := false }] [3] true).1.getD
        (rw_entry_get byteCmp 1
          [{ key := [3], msg := some ⟨.insert, [7]⟩, wts := 0, rts := 0,
             is_read := false }] [3] true).2 rw_entry0).msg
      = some ⟨.insert, [7]⟩)
    ∧ transactional_splinterdb_lookup byteCmp 1
        [{ key := [3], msg := some ⟨.insert, [7]⟩, wts := 0, rts := 0,
           is_read := false }]
        (fun _ => ⟨false, 2, 4⟩) (fun _ => [0]) [3]
      = some ([{ key := [3], msg := some ⟨.insert, [7]⟩, wts := 4,
                 rts := 6, is_read := true }], [7], []) :=
  ⟨by decide,
   lookup_read_own_write byteCmp 1
     [{ key := [3], msg := some ⟨.insert, [7]⟩, wts := 0, rts := 0,
        is_read := false }]
     (fun _ => ⟨false, 2, 4⟩) (fun _ => [0]) [3] ⟨.insert, [7]⟩
     (by decide) rfl⟩

/-! ### C8: write buffering and merge rules -/

/-- C8: for a buffered write on the entry returned by `rw_entry_get`:
with no prior pending message the incoming message is stored unchanged
(deep copy); an incoming definitive message (INSERT or DELETE) replaces
any prior pending message; an incoming UPDATE on a prior non-DELETE
message is combined via the data-config merge into a single pending
message; an incoming UPDATE on a prior pending DELETE is the fatal
assertion (`none`). -/
theorem local_write_merge_rules
    (cmp : Bytes → Bytes → Int)
    (mrg : Bytes → message → message → message) (ksz : Nat)
    (txn : List rw_entry) (slots : tscache) (user_key : Bytes)
    (msg : message) :
    (((rw_entry_get cmp ksz txn user_key false).1.getD
        (rw_entry_get cmp ksz txn user_key false).2 rw_entry0).msg
        = none →
      (local_write cmp mrg ksz txn slots user_key msg).map
        (fun t => (t.getD (rw_entry_get cmp ksz txn user_key false).2
          rw_entry0).msg) = some (some msg))
    ∧ (∀ old : message,
        ((rw_entry_get cmp ksz txn user_key false).1.getD
          (rw_entry_get cmp ksz txn user_key false).2 rw_entry0).msg
          = some old →
        cmp ((rw_entry_get cmp ksz txn user_key false).1.getD
          (rw_entry_get cmp ksz txn user_key false).2 rw_entry0).key
          user_key = 0 →
        (message_is_definitive msg = true →
          (local_write cmp mrg ksz txn slots user_key msg).map
            (fun t => (t.getD (rw_entry_get cmp ksz txn user_key false).2
              rw_entry0).msg) = some (some msg))
        ∧ (msg.cls = .update → old.cls ≠ .delete →
          (local_write cmp mrg ksz txn slots user_key msg).map
            (fun t => (t.getD (rw_entry_get cmp ksz txn user_key false).2
              rw_entry0).msg) = some (some (mrg user_key old msg)))
        ∧ (msg.cls = .update → old.cls = .delete →
          local_write cmp mrg ksz txn slots user_key msg = none)) := by
  have hi := rw_entry_get_idx_lt cmp ksz txn user_key false
  constructor
  · intro h0
    by_cases hc : msg.cls = .update ∨ msg.cls = .delete
    · simp only [local_write, if_pos hc, h0, Option.map_some']
      congr 1
      exact congrArg rw_entry.msg
        (getD_set_self _ _ _ _ (by simpa using hi))
    · simp only [local_write, if_neg hc, h0, Option.map_some']
      congr 1
      exact congrArg rw_entry.msg
        (getD_set_self _ _ _ _ (by simpa using hi))
  · intro old hold hkey
    refine ⟨?_, ?_, ?_⟩
    · intro hdef
      by_cases hc : msg.cls = .update ∨ msg.cls = .delete
      · simp only [local_write, if_pos hc, hold, hkey, if_pos rfl,
          hdef, if_true, Option.map_some']
        congr 1
        exact congrArg rw_entry.msg
          (getD_set_self _ _ _ _ (by simpa using hi))
      · simp only [local_write, if_neg hc, hold, hkey, if_pos rfl,
          hdef, if_true, Option.map_some']
        congr 1
        exact congrArg rw_entry.msg
          (getD_set_self _ _ _ _ (by simpa using hi))
    · intro hcls hnd
      have hc : msg.cls = .update ∨ msg.cls = .delete := Or.inl hcls
      have hdef : message_is_definitive msg = false := by
        simp [message_is_definitive, hcls]
      simp only [local_write, if_pos hc, hold, hkey, if_pos rfl, if_true,
        hdef, Bool.false_eq_true, if_false, if_neg hnd, Option.map_some']
      congr 1
      exact congrArg rw_entry.msg
        (getD_set_self _ _ _ _ (by simpa using hi))
    · intro hcls hdel
      have hc : msg.cls = .update ∨ msg.cls = .delete := Or.inl hcls
      have hdef : message_is_definitive msg = false := by
        simp [message_is_definitive, hcls]
      simp only [local_write, if_pos hc, hold, hkey, if_pos rfl, if_true,
        hdef, Bool.false_eq_true, if_false, if_pos hdel]

/-- C8 witness: the four rules at key `[5]` (KEY_SIZE 1): an UPDATE over
a prior INSERT merges via the supplied merge function
(concatenation here). -/
theorem local_write_merge_rules_witness :
    (((rw_entry_get byteCmp 1
        [{ key := [5], msg := some ⟨.insert, [1]⟩, wts := 0, rts := 0,
           is_read := false }] [5] false).1.getD
        (rw_entry_get byteCmp 1
          [{ key := [5], msg := some ⟨.insert, [1]⟩, wts := 0, rts := 0,
             is_read := false }] [5] false).2 rw_entry0).msg
      = some ⟨.insert, [1]⟩)
    ∧ (local_write byteCmp (fun _ o n => ⟨o.cls, o.data ++ n.data⟩) 1
          [{ key := [5], msg := some ⟨.insert, [1]⟩, wts := 0, rts := 0,
             is_read := false }]
          (fun _ => ⟨false, 0, 3⟩) [5] ⟨.update, [2]⟩).map
        (fun t => (t.getD (rw_entry_get byteCmp 1
          [{ key := [5], msg := some ⟨.insert, [1]⟩, wts := 0, rts := 0,
             is_read := false }] [5] false).2 rw_entry0).msg)
      = some (some ⟨.insert, [1, 2]⟩) :=
  ⟨by decide,
   ((local_write_merge_rules byteCmp
      (fun _ o n => ⟨o.cls, o.data ++ n.data⟩) 1
      [{ key := [5], msg := some ⟨.insert, [1]⟩, wts := 0, rts := 0,
         is_read := false }]
      (fun _ => ⟨false, 0, 3⟩) [5] ⟨.update, [2]⟩).2 ⟨.insert, [1]⟩
      (by decide) (by decide)).2.1 rfl (by decide)⟩

theorem rw_entry_unlock_idem (t : timestamp_set) :
    rw_entry_unlock (rw_entry_unlock t) = rw_entry_unlock t := rfl

theorem rw_entry_unlock_of_clear (t : timestamp_set)
    (h : t.lock_bit = false) : rw_entry_unlock t = t := by
  cases t
  simp only [rw_entry_unlock] at *
  rw [← h]

theorem applyPhase_slots (cts : Nat) :
    ∀ (ws : List rw_entry) (s : tscache) (k : Bytes),
      (applyPhase cts ws s).1 k
        = if k ∈ ws.map rw_entry.key
          then { lock_bit := false, delta := 0, wts := cts % 2 ^ 48 }
          else s k
  | [], s, k => by simp [applyPhase]
  | w :: ws, s, k => by
    simp only [applyPhase, List.map_cons, List.mem_cons]
    rw [applyPhase_slots cts ws _ k]
    by_cases hk : k ∈ ws.map rw_entry.key
    · rw [if_pos hk, if_pos (Or.inr hk)]
    · rw [if_neg hk]
      by_cases hkw : k = w.key
      · rw [if_pos (Or.inl hkw), hkw, updSlot_same]
      · rw [if_neg (by tauto), updSlot_other _ _ _ _ hkw]

theorem abortPhase_apply :
    ∀ (ws : List rw_entry) (s : tscache) (k : Bytes),
      abortPhase ws s k
        = if k ∈ ws.map rw_entry.key then rw_entry_unlock (s k)
          else s k
  | [], s, k => by simp [abortPhase]
  | w :: ws, s, k => by
    have hstep : abortPhase (w :: ws) s
        = abortPhase ws (updSlot s w.key (rw_entry_unlock (s w.key))) :=
      rfl
    rw [hstep, abortPhase_apply ws _ k]
    simp only [List.map_cons, List.mem_cons]
    by_cases hkw : k = w.key
    · by_cases hk : k ∈ ws.map rw_entry.key
      · rw [if_pos hk, if_pos (Or.inr hk), hkw, updSlot_same,
          rw_entry_unlock_idem]
      · rw [if_neg hk, if_pos (Or.inl hkw), hkw, updSlot_same]
    · rw [updSlot_other _ _ _ _ hkw]
      by_cases hk : k ∈ ws.map rw_entry.key
      · rw [if_pos hk, if_pos (Or.inr hk)]
      · rw [if_neg hk, if_neg (by tauto)]

theorem commit_cases (silo : Bool) (cmp : Bytes → Bytes → Int)
    (fuel : Nat) (txn : List rw_entry) (slots0 : tscache)
    (res : CommitOut)
    (hres : transactional_splinterdb_commit silo cmp fuel txn slots0
      = some res) :
    ∃ slots1 evs,
      lockPhase fuel (sortWrites cmp (writeSet txn)) slots0
        = (some slots1, evs)
      ∧ ((validatePhase
            (raiseCts (initialCts silo txn) slots1
              (sortWrites cmp (writeSet txn)))
            (readSet txn) slots1).2 = true
          ∧ res = { rc := -1,
                    commit_ts := raiseCts (initialCts silo txn) slots1
                      (sortWrites cmp (writeSet txn)),
                    events := evs,
                    slots := abortPhase (sortWrites cmp (writeSet txn))
                      (validatePhase
                        (raiseCts (initialCts silo txn) slots1
                          (sortWrites cmp (writeSet txn)))
                        (readSet txn) slots1).1,
                    teardown := txn }
        ∨ (validatePhase
            (raiseCts (initialCts silo txn) slots1
              (sortWrites cmp (writeSet txn)))
            (readSet txn) slots1).2 = false
          ∧ res = { rc := 0,
                    commit_ts := raiseCts (initialCts silo txn) slots1
                      (sortWrites cmp (writeSet txn)),
                    events := evs ++ (applyPhase
                      (raiseCts (initialCts silo txn) slots1
                        (sortWrites cmp (writeSet txn)))
                      (sortWrites cmp (writeSet txn))
                      (validatePhase
                        (raiseCts (initialCts silo txn) slots1
                          (sortWrites cmp (writeSet txn)))
                        (readSet txn) slots1).1).2,
                    slots := (applyPhase
                      (raiseCts (initialCts silo txn) slots1
                        (sortWrites cmp (writeSet txn)))
                      (sortWrites cmp (writeSet txn))
                      (validatePhase
                        (raiseCts (initialCts silo txn) slots1
                          (sortWrites cmp (writeSet txn)))
                        (readSet txn) slots1).1).1,
                    teardown := txn }) := by
  simp only [transactional_splinterdb_commit] at hres
  rcases hl : lockPhase fuel (sortWrites cmp (writeSet txn)) slots0
    with ⟨os, evs⟩
  rw [hl] at hres
  rcases os with _ | slots1
  · simp at hres
  · refine ⟨slots1, evs, rfl, ?_⟩
    simp only at hres
    by_cases hab : (validatePhase
        (raiseCts (initialCts silo txn) slots1
          (sortWrites cmp (writeSet txn)))
        (readSet txn) slots1).2
    · left
      rw [if_pos hab, Option.some.injEq] at hres
      exact ⟨hab, hres.symm⟩
    · right
      rw [if_neg hab, Option.some.injEq] at hres
      exact ⟨Bool.not_eq_true _ ▸ hab, hres.symm⟩

/-! ### C3: commit timestamp derivation -/

/-- C3: the commit timestamp is exactly the maximum, starting from 0, of
`entry.wts` (+1 only in the Silo build variant) over the read set and of
`rts_of(slot) + 1` over the (locked) write set. -/
theorem commit_ts_is_max (silo : Bool) (cmp : Bytes → Bytes → Int)
    (fuel : Nat) (txn : List rw_entry) (slots0 : tscache)
    (res : CommitOut) (slots1 : tscache) (evs : List Event)
    (hres : transactional_splinterdb_commit silo cmp fuel txn slots0
      = some res)
    (hlock : lockPhase fuel (sortWrites cmp (writeSet txn)) slots0
      = (some slots1, evs)) :
    (∀ r ∈ readSet txn, r.wts + siloAdd silo ≤ res.commit_ts)
    ∧ (∀ w ∈ writeSet txn,
        timestamp_set_get_rts (slots1 w.key) + 1 ≤ res.commit_ts)
    ∧ (res.commit_ts = 0
       ∨ (∃ r ∈ readSet txn, res.commit_ts = r.wts + siloAdd silo)
       ∨ ∃ w ∈ writeSet txn,
           res.commit_ts = timestamp_set_get_rts (slots1 w.key) + 1) := by
  obtain ⟨s1, e1, hl, hcase⟩ :=
    commit_cases silo cmp fuel txn slots0 res hres
  rw [hlock] at hl
  injection hl with h1 h2
  injection h1 with h1
  subst h1
  subst h2
  have hcts : res.commit_ts
      = raiseCts (initialCts silo txn) slots1
          (sortWrites cmp (writeSet txn)) := by
    rcases hcase with ⟨_, rfl⟩ | ⟨_, rfl⟩ <;> rfl
  have hperm := List.perm_insertionSort
    (fun a b : rw_entry => cmp a.key b.key ≤ 0) (writeSet txn)
  have hraise := foldl_max_spec
    (fun w => timestamp_set_get_rts (slots1 w.key) + 1)
    (sortWrites cmp (writeSet txn)) (initialCts silo txn)
  have hinit := foldl_max_spec (fun r => r.wts + siloAdd silo)
    (readSet txn) 0
  refine ⟨?_, ?_, ?_⟩
  · intro r hr
    rw [hcts]
    exact le_trans (hinit.2.1 r hr) hraise.1
  · intro w hw
    rw [hcts]
    exact hraise.2.1 w (hperm.mem_iff.mpr hw)
  · rw [hcts]
    rcases hraise.2.2 with he | ⟨w, hw, he⟩
    · rcases hinit.2.2 with h0 | ⟨r, hr, hrr⟩
      · left
        exact he.trans h0
      · right; left
        exact ⟨r, hr, he.trans hrr⟩
    · right; right
      exact ⟨w, hperm.mem_iff.mp hw, he⟩

/-- C3 witness: a commit with one read (`wts = 4`) and one write (slot
rts 0, bound 1): `commit_ts = 4`, attained by the read. -/
theorem commit_ts_is_max_witness :
    (transactional_splinterdb_commit false hdCmp 1
      [{ key := [1], msg := none, wts := 4, rts := 4, is_read := true },
       { key := [2], msg := some ⟨.insert, [9]⟩, wts := 0, rts := 0,
         is_read := false }]
      (fun _ => ⟨false, 0, 0⟩)
      = some { rc := 0, commit_ts := 4,
               events := [Event.kvsInsert [2] [9]],
               slots := updSlot (updSlot (fun _ => ⟨false, 0, 0⟩) [2]
                 ⟨true, 0, 0⟩) [2] ⟨false, 0, 4 % 2 ^ 48⟩,
               teardown :=
                 [{ key := [1], msg := none, wts := 4, rts := 4,
                    is_read := true },
                  { key := [2], msg := some ⟨.insert, [9]⟩, wts := 0,
                    rts := 0, is_read := false }] })
    ∧ ((4 : Nat) = 0
       ∨ (∃ r ∈ readSet
            [{ key := [1], msg := none, wts := 4, rts := 4,
               is_read := true },
             { key := [2], msg := some ⟨.insert, [9]⟩, wts := 0,
               rts := 0, is_read := false }],
            (4 : Nat) = r.wts + siloAdd false)
       ∨ ∃ w ∈ writeSet
            [{ key := [1], msg := none, wts := 4, rts := 4,
               is_read := true },
             { key := [2], msg := some ⟨.insert, [9]⟩, wts := 0,
               rts := 0, is_read := false }],
            (4 : Nat) = timestamp_set_get_rts
              ((updSlot (fun _ => ⟨false, 0, 0⟩) [2] ⟨true, 0, 0⟩)
                w.key) + 1) :=
  ⟨rfl,
   (commit_ts_is_max false hdCmp 1
     [{ key := [1], msg := none, wts := 4, rts := 4, is_read := true },
      { key := [2], msg := some ⟨.insert, [9]⟩, wts := 0, rts := 0,
        is_read := false }]
     (fun _ => ⟨false, 0, 0⟩)
     { rc := 0, commit_ts := 4, events := [Event.kvsInsert [2] [9]],
       slots := updSlot (updSlot (fun _ => ⟨false, 0, 0⟩) [2]
         ⟨true, 0, 0⟩) [2] ⟨false, 0, 4 % 2 ^ 48⟩,
       teardown :=
         [{ key := [1], msg := none, wts := 4, rts := 4,
            is_read := true },
          { key := [2], msg := some ⟨.insert, [9]⟩, wts := 0, rts := 0,
            is_read := false }] }
     (updSlot (fun _ => ⟨false, 0, 0⟩) [2] ⟨true, 0, 0⟩) []
     rfl rfl).2.2⟩

/-! ### C9: slot word after a committed write -/

/-- C9 (counterexample): a committed insert whose `commit_ts` reaches
`2^48` (write slot at `wts = 2^48 - 1`, so `rts + 1 = 2^48`) stores
`wts = 0` — the slot word is not `{wts = commit_ts, delta = 0,
lock_bit = 0}`. -/
theorem apply_slot_overflow_cex :
    (transactional_splinterdb_commit false byteCmp 1
      [{ key := [7], msg := some ⟨.insert, [1]⟩, wts := 0, rts := 0,
         is_read := false }]
      (fun _ => ⟨false, 0, 2 ^ 48 - 1⟩)).map
        (fun r => (r.rc, r.commit_ts, r.slots [7]))
      = some (0, 2 ^ 48, ⟨false, 0, 0⟩)
    ∧ (⟨false, 0, 0⟩ : timestamp_set) ≠ ⟨false, 0, 2 ^ 48⟩ := by
  exact ⟨rfl, by decide⟩

/-- C9 (amended): after a non-aborting commit applies a buffered write,
the key's slot word is CAS-ed to exactly
`{wts = commit_ts mod 2^48, delta = 0, lock_bit = 0}` (the 48-bit store
truncates; the `wts` equals `commit_ts` whenever `commit_ts < 2^48`), so
after every committed write the delta is zero and the lock bit clear. -/
theorem apply_slot_word (silo : Bool) (cmp : Bytes → Bytes → Int)
    (fuel : Nat) (txn : List rw_entry) (slots0 : tscache)
    (res : CommitOut)
    (hres : transactional_splinterdb_commit silo cmp fuel txn slots0
      = some res)
    (hrc : res.rc = 0) :
    ∀ w ∈ writeSet txn,
      res.slots w.key
        = { lock_bit := false, delta := 0,
            wts := res.commit_ts % 2 ^ 48 } := by
  obtain ⟨slots1, evs, hl, hcase⟩ :=
    commit_cases silo cmp fuel txn slots0 res hres
  rcases hcase with ⟨_, rfl⟩ | ⟨_, rfl⟩
  · simp at hrc
  · intro w hw
    have hmem : w.key ∈ (sortWrites cmp (writeSet txn)).map rw_entry.key :=
      List.mem_map_of_mem rw_entry.key
        ((List.perm_insertionSort
          (fun a b : rw_entry => cmp a.key b.key ≤ 0)
          (writeSet txn)).mem_iff.mpr hw)
    simp only
    rw [applyPhase_slots]
    rw [if_pos hmem]

/-- C9 witness: the amended theorem at a committed single insert with
`commit_ts = 1`: the slot word becomes
`{lock_bit = 0, delta = 0, wts = 1 mod 2^48}`. -/
theorem apply_slot_word_witness :
    (transactional_splinterdb_commit false hdCmp 1
      [{ key := [2], msg := some ⟨.insert, [9]⟩, wts := 0, rts := 0,
         is_read := false }]
      (fun _ => ⟨false, 0, 0⟩)
      = some { rc := 0, commit_ts := 1,
               events := [Event.kvsInsert [2] [9]],
               slots := updSlot (updSlot (fun _ => ⟨false, 0, 0⟩) [2]
                 ⟨true, 0, 0⟩) [2] ⟨false, 0, 1 % 2 ^ 48⟩,
               teardown := [{ key := [2], msg := some ⟨.insert, [9]⟩,
                              wts := 0, rts := 0, is_read := false }] })
    ∧ (updSlot (updSlot (fun _ => ⟨false, 0, 0⟩) [2] ⟨true, 0, 0⟩) [2]
        ⟨false, 0, 1 % 2 ^ 48⟩) [2]
      = { lock_bit := false, delta := 0, wts := 1 % 2 ^ 48 } :=
  ⟨rfl,
   apply_slot_word false hdCmp 1
     [{ key := [2], msg := some ⟨.insert, [9]⟩, wts := 0, rts := 0,
        is_read := false }]
     (fun _ => ⟨false, 0, 0⟩)
     { rc := 0, commit_ts := 1, events := [Event.kvsInsert [2] [9]],
       slots := updSlot (updSlot (fun _ => ⟨false, 0, 0⟩) [2]
         ⟨true, 0, 0⟩) [2] ⟨false, 0, 1 % 2 ^ 48⟩,
       teardown := [{ key := [2], msg := some ⟨.insert, [9]⟩, wts := 0,
                      rts := 0, is_read := false }] }
     rfl rfl
     { key := [2], msg := some ⟨.insert, [9]⟩, wts := 0, rts := 0,
       is_read := false }
     (by decide)⟩

theorem validatePhase_congr (cts : Nat) :
    ∀ (rs : List rw_entry) (s₁ s₂ : tscache),
      (∀ r ∈ rs, s₁ r.key = s₂ r.key) →
      (validatePhase cts rs s₁).2 = (validatePhase cts rs s₂).2
  | [], s₁, s₂ => by simp [validatePhase]
  | r :: rs, s₁, s₂ => by
    intro h
    have hr : s₁ r.key = s₂ r.key := h r (by simp)
    have htail : ∀ r' ∈ rs, s₁ r'.key = s₂ r'.key :=
      fun r' hr' => h r' (List.mem_cons_of_mem _ hr')
    simp only [validatePhase]
    by_cases h1 : r.rts < cts
    · rw [if_pos h1, if_pos h1, hr]
      by_cases h2 : validateCond cts r (s₂ r.key)
      · rw [if_pos h2, if_pos h2]
      · rw [if_neg h2, if_neg h2]
        by_cases h3 : timestamp_set_get_rts (s₂ r.key) ≤ cts
        · rw [if_pos h3, if_pos h3]
          apply validatePhase_congr cts rs
          intro r' hr'
          by_cases hk : r'.key = r.key
          · rw [hk, updSlot_same, updSlot_same]
          · rw [updSlot_other _ _ _ _ hk, updSlot_other _ _ _ _ hk]
            exact htail r' hr'
        · rw [if_neg h3, if_neg h3]
          exact validatePhase_congr cts rs s₁ s₂ htail
    · rw [if_neg h1, if_neg h1]
      exact validatePhase_congr cts rs s₁ s₂ htail

theorem validatePhase_abort_iff (cts : Nat) :
    ∀ (rs : List rw_entry) (s : tscache),
      (rs.map rw_entry.key).Nodup →
      ((validatePhase cts rs s).2 = true
        ↔ ∃ r ∈ rs, r.rts < cts ∧ validateCond cts r (s r.key))
  | [], s => by simp [validatePhase]
  | r :: rs, s => by
    intro hnd
    simp only [List.map_cons, List.nodup_cons] at hnd
    have hhead : ∀ P : Prop,
        (((validatePhase cts rs s).2 = true ↔
          ∃ r' ∈ rs, r'.rts < cts ∧ validateCond cts r' (s r'.key))) →
        ¬(r.rts < cts ∧ validateCond cts r (s r.key)) →
        ((validatePhase cts rs s).2 = true ↔
          ∃ r' ∈ r :: rs, r'.rts < cts ∧ validateCond cts r' (s r'.key)) := by
      intro _ hiff hnc
      rw [hiff]
      constructor
      · rintro ⟨r', hr', hc⟩
        exact ⟨r', List.mem_cons_of_mem _ hr', hc⟩
      · rintro ⟨r', hr', hc⟩
        rcases List.mem_cons.mp hr' with rfl | hr'
        · exact absurd hc hnc
        · exact ⟨r', hr', hc⟩
    simp only [validatePhase]
    by_cases h1 : r.rts < cts
    · rw [if_pos h1]
      by_cases h2 : validateCond cts r (s r.key)
      · rw [if_pos h2]
        simp only [true_iff]
        exact ⟨r, List.mem_cons_self r rs, h1, h2⟩
      · rw [if_neg h2]
        by_cases h3 : timestamp_set_get_rts (s r.key) ≤ cts
        · rw [if_pos h3]
          have hcong := validatePhase_congr cts rs
            (updSlot s r.key (extendRts cts (s r.key))) s
            (fun r' hr' => updSlot_other _ _ _ _
              (fun he => hnd.1 (he ▸ List.mem_map_of_mem rw_entry.key hr')))
          rw [hcong]
          exact hhead True (validatePhase_abort_iff cts rs s hnd.2)
            (fun hc => h2 hc.2)
        · rw [if_neg h3]
          exact hhead True (validatePhase_abort_iff cts rs s hnd.2)
            (fun hc => h2 hc.2)
    · rw [if_neg h1]
      exact hhead True (validatePhase_abort_iff cts rs s hnd.2)
        (fun hc => h1 hc.1)

/-! ### C1: read validation abort condition -/

/-- C1: the commit aborts (returns −1) iff some read entry `r` with
sampled `r.rts < commit_ts` observes a snapshot `v1` of its slot (after
the write locks were taken) with `v1.wts ≠ r.wts`, or with
`rts_of(v1) ≤ commit_ts`, the lock bit set, and no pending write message
on the entry; reads with `r.rts ≥ commit_ts` are never validated and
never cause an abort. -/
theorem validation_abort_iff (silo : Bool) (cmp : Bytes → Bytes → Int)
    (fuel : Nat) (txn : List rw_entry) (slots0 : tscache)
    (res : CommitOut) (slots1 : tscache) (evs : List Event)
    (hres : transactional_splinterdb_commit silo cmp fuel txn slots0
      = some res)
    (hlock : lockPhase fuel (sortWrites cmp (writeSet txn)) slots0
      = (some slots1, evs))
    (hnodup : (txn.map rw_entry.key).Nodup) :
    res.rc = -1
      ↔ ∃ r ∈ readSet txn,
          r.rts < res.commit_ts
          ∧ validateCond res.commit_ts r (slots1 r.key) := by
  obtain ⟨s1, e1, hl, hcase⟩ :=
    commit_cases silo cmp fuel txn slots0 res hres
  rw [hlock] at hl
  injection hl with h1 h2
  injection h1 with h1
  subst h1
  subst h2
  have hrd : ((readSet txn).map rw_entry.key).Nodup :=
    hnodup.sublist (List.Sublist.map _ (List.filter_sublist _))
  have hiff := validatePhase_abort_iff
    (raiseCts (initialCts silo txn) slots1 (sortWrites cmp (writeSet txn)))
    (readSet txn) slots1 hrd
  rcases hcase with ⟨hflag, rfl⟩ | ⟨hflag, rfl⟩
  · simp only
    constructor
    · intro _
      exact hiff.mp hflag
    · intro _
      trivial
  · simp only
    constructor
    · intro h
      exact absurd h (by decide)
    · intro hex
      rw [hflag] at hiff
      exact absurd (hiff.mpr hex) (by decide)

/-- C1 witness: a single-read transaction whose sampled `wts = 5`
differs from the slot's `wts = 0`: the commit returns −1, and the iff
holds at `commit_ts = 5`. -/
theorem validation_abort_iff_witness :
    (transactional_splinterdb_commit false hdCmp 1
      [{ key := [1], msg := none, wts := 5, rts := 0, is_read := true }]
      (fun _ => ⟨false, 0, 0⟩)
      = some { rc := -1, commit_ts := 5, events := [],
               slots := (fun _ => ⟨false, 0, 0⟩),
               teardown := [{ key := [1], msg := none, wts := 5,
                              rts := 0, is_read := true }] }
     ∧ (([{ key := [1], msg := none, wts := 5, rts := 0,
            is_read := true }] : List rw_entry).map rw_entry.key).Nodup)
    ∧ ((-1 : Int) = -1
        ↔ ∃ r ∈ readSet
            [{ key := [1], msg := none, wts := 5, rts := 0,
               is_read := true }],
            r.rts < 5 ∧ validateCond 5 r
              ((fun _ => (⟨false, 0, 0⟩ : timestamp_set)) r.key)) :=
  ⟨⟨rfl, by decide⟩,
   validation_abort_iff false hdCmp 1
     [{ key := [1], msg := none, wts := 5, rts := 0, is_read := true }]
     (fun _ => ⟨false, 0, 0⟩)
     { rc := -1, commit_ts := 5, events := [],
       slots := (fun _ => ⟨false, 0, 0⟩),
       teardown := [{ key := [1], msg := none, wts := 5, rts := 0,
                      is_read := true }] }
     (fun _ => ⟨false, 0, 0⟩) [] rfl rfl (by decide)⟩

/-! ### C4: abort releases everything and mutates nothing -/

/-- C4: if the commit aborts, no KVS insert/update/delete is issued (the
trace holds only back-off sleeps), every write slot ends with the lock
bit cleared and the `wts`/`delta` it had at the end of validation, and
the transaction is torn down exactly as on a successful commit. -/
theorem abort_path_clean (silo : Bool) (cmp : Bytes → Bytes → Int)
    (fuel : Nat) (txn : List rw_entry) (slots0 : tscache)
    (res : CommitOut) (slots1 : tscache) (evs : List Event)
    (hres : transactional_splinterdb_commit silo cmp fuel txn slots0
      = some res)
    (hlock : lockPhase fuel (sortWrites cmp (writeSet txn)) slots0
      = (some slots1, evs))
    (hrc : res.rc = -1) :
    (∀ e ∈ res.events, e.isKvs = false)
    ∧ (∀ w ∈ writeSet txn,
        res.slots w.key
          = rw_entry_unlock ((validatePhase
              (raiseCts (initialCts silo txn) slots1
                (sortWrites cmp (writeSet txn)))
              (readSet txn) slots1).1 w.key)
        ∧ (res.slots w.key).wts
            = ((validatePhase
                (raiseCts (initialCts silo txn) slots1
                  (sortWrites cmp (writeSet txn)))
                (readSet txn) slots1).1 w.key).wts
        ∧ (res.slots w.key).delta
            = ((validatePhase
                (raiseCts (initialCts silo txn) slots1
                  (sortWrites cmp (writeSet txn)))
                (readSet txn) slots1).1 w.key).delta
        ∧ (res.slots w.key).lock_bit = false)
    ∧ res.teardown = txn := by
  obtain ⟨s1, e1, hl, hcase⟩ :=
    commit_cases silo cmp fuel txn slots0 res hres
  rw [hlock] at hl
  injection hl with h1 h2
  injection h1 with h1
  subst h1
  subst h2
  rcases hcase with ⟨hflag, rfl⟩ | ⟨hflag, rfl⟩
  · refine ⟨?_, ?_, rfl⟩
    · intro e he
      have hsleep := lockPhase_events_sleep fuel
        (sortWrites cmp (writeSet txn)) slots0 e
        (by rw [hlock]; exact he)
      rw [hsleep]
      rfl
    · intro w hw
      have hmem : w.key
          ∈ (sortWrites cmp (writeSet txn)).map rw_entry.key :=
        List.mem_map_of_mem rw_entry.key
          ((List.perm_insertionSort
            (fun a b : rw_entry => cmp a.key b.key ≤ 0)
            (writeSet txn)).mem_iff.mpr hw)
      simp only
      rw [abortPhase_apply, if_pos hmem]
      exact ⟨rfl, rfl, rfl, rfl⟩
  · simp at hrc

/-- C4 witness: a transaction with one conflicting read (sampled
`wts = 5` vs slot `wts = 0`) and one buffered delete: the commit
returns −1 with no KVS call, the write slot ends unlocked with its
word restored, and the teardown equals the entry list. -/
theorem abort_path_clean_witness :
    (transactional_splinterdb_commit false hdCmp 1
      [{ key := [1], msg := none, wts := 5, rts := 0, is_read := true },
       { key := [2], msg := some ⟨.delete, []⟩, wts := 0, rts := 0,
         is_read := false }]
      (fun _ => ⟨false, 0, 0⟩)
      = some { rc := -1, commit_ts := 5, events := [],
               slots := updSlot (updSlot (fun _ => ⟨false, 0, 0⟩) [2]
                 ⟨true, 0, 0⟩) [2] ⟨false, 0, 0⟩,
               teardown :=
                 [{ key := [1], msg := none, wts := 5, rts := 0,
                    is_read := true },
                  { key := [2], msg := some ⟨.delete, []⟩, wts := 0,
                    rts := 0, is_read := false }] })
    ∧ ((updSlot (updSlot (fun _ => ⟨false, 0, 0⟩) [2] ⟨true, 0, 0⟩) [2]
        ⟨false, 0, 0⟩) [2]).lock_bit = false :=
  ⟨rfl,
   ((abort_path_clean false hdCmp 1
     [{ key := [1], msg := none, wts := 5, rts := 0, is_read := true },
      { key := [2], msg := some ⟨.delete, []⟩, wts := 0, rts := 0,
        is_read := false }]
     (fun _ => ⟨false, 0, 0⟩)
     { rc := -1, commit_ts := 5, events := [],
       slots := updSlot (updSlot (fun _ => ⟨false, 0, 0⟩) [2]
         ⟨true, 0, 0⟩) [2] ⟨false, 0, 0⟩,
       teardown :=
         [{ key := [1], msg := none, wts := 5, rts := 0,
            is_read := true },
          { key := [2], msg := some ⟨.delete, []⟩, wts := 0, rts := 0,
            is_read := false }] }
     (updSlot (fun _ => ⟨false, 0, 0⟩) [2] ⟨true, 0, 0⟩) []
     rfl rfl rfl).2.1
     { key := [2], msg := some ⟨.delete, []⟩, wts := 0, rts := 0,
       is_read := false }
     (by decide)).2.2.2⟩

theorem lockLoop_restore :
    ∀ (ws acq : List rw_entry) (s0 s s' : tscache),
      (∀ k, (k ∈ acq.map rw_entry.key →
          s k = { s0 k with lock_bit := true }
            ∧ (s0 k).lock_bit = false)
        ∧ (k ∉ acq.map rw_entry.key → s k = s0 k)) →
      lockLoop acq ws s = .inr s' → s' = s0
  | [], acq, s0, s, s' => by
    intro _ h
    simp [lockLoop] at h
  | w :: ws, acq, s0, s, s' => by
    intro hinv h
    simp only [lockLoop] at h
    rcases htl : rw_entry_try_lock (s w.key) with _ | t
    · rw [htl] at h
      simp only at h
      injection h with h
      subst h
      funext k
      show abortPhase acq s k = s0 k
      rw [abortPhase_apply]
      by_cases hk : k ∈ acq.map rw_entry.key
      · rw [if_pos hk]
        obtain ⟨hs, h0⟩ := (hinv k).1 hk
        rw [hs]
        exact rw_entry_unlock_of_clear _ h0
      · rw [if_neg hk]
        exact (hinv k).2 hk
    · rw [htl] at h
      simp only at h
      have hb : (s w.key).lock_bit = false ∧
          t = { s w.key with lock_bit := true } := by
        unfold rw_entry_try_lock at htl
        by_cases hbb : (s w.key).lock_bit
        · rw [if_pos hbb] at htl
          cases htl
        · rw [if_neg hbb] at htl
          injection htl with htl
          exact ⟨by revert hbb; cases (s w.key).lock_bit <;> simp,
            htl.symm⟩
      have hwk : w.key ∉ acq.map rw_entry.key := by
        intro hmem
        have hlocked := ((hinv w.key).1 hmem).1
        rw [hlocked] at hb
        simp at hb
      have hs0 : s w.key = s0 w.key := (hinv w.key).2 hwk
      refine lockLoop_restore ws (acq ++ [w]) s0
        (updSlot s w.key t) s' ?_ h
      intro k
      constructor
      · intro hk
        rw [List.map_append, List.mem_append] at hk
        rcases hk with hk | hk
        · have hkw : k ≠ w.key := fun he => hwk (he ▸ hk)
          rw [updSlot_other _ _ _ _ hkw]
          exact (hinv k).1 hk
        · simp only [List.map_cons, List.map_nil,
            List.mem_singleton] at hk
          subst hk
          rw [updSlot_same]
          refine ⟨?_, ?_⟩
          · rw [hb.2, hs0]
          · rw [← hs0]
            exact hb.1
      · intro hk
        rw [List.map_append, List.mem_append] at hk
        push_neg at hk
        have hkw : k ≠ w.key := by
          intro he
          exact hk.2 (by simp [he])
        rw [updSlot_other _ _ _ _ hkw]
        exact (hinv k).2 hk.1

theorem hdCmp_total (a b : Bytes) : hdCmp a b ≤ 0 ∨ hdCmp b a ≤ 0 := by
  unfold hdCmp
  omega

theorem hdCmp_trans (a b c : Bytes) :
    hdCmp a b ≤ 0 → hdCmp b c ≤ 0 → hdCmp a c ≤ 0 := by
  unfold hdCmp
  omega

/-! ### C7: sorted no-wait locking -/

/-- C7: commit sorts the write set ascending by the data-config key
comparator (the sorted list is a permutation of the write set, pairwise
ordered) and try-locks slots in that order; when a try-lock fails, all
locks acquired earlier in the attempt are released — restoring the
cache exactly to its pre-attempt state — one `platform_sleep_ns(1000)`
is recorded, and acquisition restarts from the first write of the
sorted set. -/
theorem commit_lock_order (cmp : Bytes → Bytes → Int)
    (txn : List rw_entry)
    (htot : ∀ a b : Bytes, cmp a b ≤ 0 ∨ cmp b a ≤ 0)
    (htrans : ∀ a b c : Bytes,
      cmp a b ≤ 0 → cmp b c ≤ 0 → cmp a c ≤ 0) :
    (sortWrites cmp (writeSet txn)).Perm (writeSet txn)
    ∧ List.Pairwise (fun a b : rw_entry => cmp a.key b.key ≤ 0)
        (sortWrites cmp (writeSet txn))
    ∧ (∀ (s s' : tscache),
        lockLoop [] (sortWrites cmp (writeSet txn)) s = .inr s' →
        s' = s)
    ∧ (∀ (fuel : Nat) (s s' : tscache),
        lockLoop [] (sortWrites cmp (writeSet txn)) s = .inr s' →
        lockPhase (fuel + 1) (sortWrites cmp (writeSet txn)) s
          = ((lockPhase fuel (sortWrites cmp (writeSet txn)) s').1,
             Event.sleepNs 1000
               :: (lockPhase fuel (sortWrites cmp (writeSet txn))
                 s').2)) := by
  haveI : IsTotal rw_entry (fun a b : rw_entry => cmp a.key b.key ≤ 0) :=
    ⟨fun a b => htot a.key b.key⟩
  haveI : IsTrans rw_entry (fun a b : rw_entry => cmp a.key b.key ≤ 0) :=
    ⟨fun a b c => htrans a.key b.key c.key⟩
  refine ⟨List.perm_insertionSort _ _,
    List.sorted_insertionSort _ _, ?_, ?_⟩
  · intro s s' h
    exact lockLoop_restore (sortWrites cmp (writeSet txn)) [] s s s'
      (fun k => ⟨fun hk => absurd hk (by simp), fun _ => rfl⟩) h
  · intro fuel s s' h
    simp only [lockPhase, h]

/-- C7 witness: two buffered writes issued out of key order get sorted
to `[3] < [5]`; with the slot of `[5]` already locked, one locking pass
locks `[3]`, fails on `[5]`, and the release restores the cache to its
pre-attempt state. -/
theorem commit_lock_order_witness :
    List.Pairwise (fun a b : rw_entry => hdCmp a.key b.key ≤ 0)
      (sortWrites hdCmp (writeSet
        [{ key := [5], msg := some ⟨.insert, [1]⟩, wts := 0, rts := 0,
           is_read := false },
         { key := [3], msg := some ⟨.insert, [2]⟩, wts := 0, rts := 0,
           is_read := false }]))
    ∧ (updSlot (updSlot
          (fun k => if k = [5] then ⟨true, 0, 0⟩ else ⟨false, 1, 2⟩)
          [3] ⟨true, 1, 2⟩) [3] ⟨false, 1, 2⟩)
      = (fun k => if k = [5] then ⟨true, 0, 0⟩ else ⟨false, 1, 2⟩) :=
  ⟨(commit_lock_order hdCmp
     [{ key := [5], msg := some ⟨.insert, [1]⟩, wts := 0, rts := 0,
        is_read := false },
      { key := [3], msg := some ⟨.insert, [2]⟩, wts := 0, rts := 0,
        is_read := false }] hdCmp_total hdCmp_trans).2.1,
   (commit_lock_order hdCmp
     [{ key := [5], msg := some ⟨.insert, [1]⟩, wts := 0, rts := 0,
        is_read := false },
      { key := [3], msg := some ⟨.insert, [2]⟩, wts := 0, rts := 0,
        is_read := false }] hdCmp_total hdCmp_trans).2.2.1
     (fun k => if k = [5] then ⟨true, 0, 0⟩ else ⟨false, 1, 2⟩)
     (updSlot (updSlot
       (fun k => if k = [5] then ⟨true, 0, 0⟩ else ⟨false, 1, 2⟩)
       [3] ⟨true, 1, 2⟩) [3] ⟨false, 1, 2⟩)
     rfl⟩

end Fantasticc
